import Mathlib

/-
Verification of a functional reactive model library (model.js).

The library is a key-value store with reactive listeners:
  - set(key, value) / set(object) store values and synchronously invoke
    the listeners registered for each written key;
  - get(key) reads a value (undefined for absent keys);
  - when(dependencies, fn, thisArg) registers a single debounced resolver
    on every dependency property and fires it once for initialization;
    the resolver reads current dependency values and calls fn with them
    only when all are defined (neither undefined nor null).

The embedding below models the store state explicitly.  Since the public
API registers only debounced resolver triggers as listeners, a listener is
identified by the index of its resolver.  Calls of listeners are recorded
in a trace field so that notification order is observable, and callback
invocations (fn.apply) are recorded as events.  The JavaScript event-loop
turn that runs a setTimeout callback is the step function tick.
-/

namespace Model

/-- Values stored in the model.  JavaScript distinguishes the absent or
undefined value and the null value from all ordinary defined values; the
definedness check in allAreDefined tests exactly these two sentinels. -/
inductive Value where
  | undef : Value
  | null : Value
  | num (n : Int) : Value
  | str (s : String) : Value
deriving DecidableEq

/-- Test from the body of allAreDefined, line 189 of model.js:
typeof d is undefined, or d equals null. -/
def isUndefinedOrNull : Value → Bool
  | Value.undef => true
  | Value.null => true
  | _ => false

/-- Lines 186-194 of model.js: starts with allDefined true, walks the
array with forEach, and flips the flag to false whenever an element is
undefined or null. -/
def allAreDefined (arr : List Value) : Bool :=
  arr.foldl (fun allDefined d => if isUndefinedOrNull d then false else allDefined) true

/-- Dependency listener created by a when call: the normalized dependency
list and the optional thisArg context, both captured by the closure. -/
structure Resolver where
  deps : List String
  ctx : Option Nat
deriving DecidableEq

/-- Record of one callback invocation (fn.apply(thisArg, args)): the
resolver that fired, its this-binding, and the ordered argument list. -/
inductive Event where
  | invoke (id : Nat) (ctx : Option Nat) (args : List Value)
deriving DecidableEq

/-- Whole state of one model instance together with the host scheduler.
values and callbacks are the two internal objects of the closure;
resolvers lists the when-registrations (a listener handle is an index
into it); queued holds each resolver's debounce flag; timeouts is the
FIFO queue of pending setTimeout callbacks; triggers records every
invocation of a registered (debounced) listener; events records every
callback invocation performed by a resolver. -/
structure ModelState where
  values : List (String × Value)
  callbacks : List (String × List Nat)
  resolvers : List Resolver
  queued : List Bool
  timeouts : List Nat
  triggers : List Nat
  events : List Event
deriving DecidableEq

/-- Reading property key of the JavaScript object values: the most recent
binding, if any. -/
def lookupValue : List (String × Value) → String → Option Value
  | [], _ => none
  | (k, v) :: rest, key => if k = key then some v else lookupValue rest key

/-- Reading property key of the JavaScript object callbacks. -/
def lookupCallbacks : List (String × List Nat) → String → Option (List Nat)
  | [], _ => none
  | (k, l) :: rest, key => if k = key then some l else lookupCallbacks rest key

/-- The listener list of a key, empty when the key is absent. -/
def registered (cbs : List (String × List Nat)) (key : String) : List Nat :=
  (lookupCallbacks cbs key).getD []

/-- Writing property key of the callbacks object. -/
def updateCallbacks : List (String × List Nat) → String → List Nat → List (String × List Nat)
  | [], key, l => [(key, l)]
  | (k, l0) :: rest, key, l =>
      if k = key then (key, l) :: rest else (k, l0) :: updateCallbacks rest key l

/-- Lines 65-78 of model.js, function on(key, callback): create the list
for the key if absent, then push the callback.  Named onKey because on is
a reserved token. -/
def onKey (cbs : List (String × List Nat)) (key : String) (id : Nat) : List (String × List Nat) :=
  updateCallbacks cbs key (registered cbs key ++ [id])

/-- Calling the debounced trigger of resolver id (lines 173-181 of
model.js): the call itself is recorded, then if the queued flag is not
set, it is set and the inner function is scheduled with setTimeout. -/
def callDebounced (s : ModelState) (id : Nat) : ModelState :=
  let s1 : ModelState := { s with triggers := s.triggers ++ [id] }
  if s1.queued.getD id true then s1
  else { s1 with queued := s1.queued.set id true, timeouts := s1.timeouts ++ [id] }

/-- Lines 106-117 of model.js, setKeyValue(key, value): update the
internal value, then, if there are callbacks for the key, call each of
them in order with forEach. -/
def setKeyValue (s : ModelState) (key : String) (value : Value) : ModelState :=
  let s1 : ModelState := { s with values := (key, value) :: s.values }
  match lookupCallbacks s1.callbacks key with
  | none => s1
  | some ids => ids.foldl callDebounced s1

/-- Lines 101-105 of model.js, setObject(object): Object.keys order, one
setKeyValue per key. -/
def setObject (s : ModelState) (object : List (String × Value)) : ModelState :=
  object.foldl (fun st kv => setKeyValue st kv.1 kv.2) s

/-- Argument of the public set: either a key with a value, or an object. -/
inductive SetArg where
  | key (k : String) (v : Value)
  | obj (o : List (String × Value))
deriving DecidableEq

/-- Lines 94-100 of model.js, set(keyOrObject, value): dispatch on whether
the first argument is a string. -/
def set (s : ModelState) : SetArg → ModelState
  | SetArg.key k v => setKeyValue s k v
  | SetArg.obj o => setObject s o

/-- Lines 120-122 of model.js, get(key): return values[key], which is the
undefined value when the key is absent. -/
def get (s : ModelState) (key : String) : Value :=
  (lookupValue s.values key).getD Value.undef

/-- Body of the debounced closure built by when (lines 133-146 of
model.js): map each dependency to its current value, and call fn with
those arguments only if all are defined. -/
def callFnBody (s : ModelState) (id : Nat) : ModelState :=
  match s.resolvers.get? id with
  | none => s
  | some r =>
      let args := r.deps.map (fun dependency => get s dependency)
      if allAreDefined args then
        { s with events := s.events ++ [Event.invoke id r.ctx args] }
      else s

/-- One turn of the event loop: run the oldest pending setTimeout
callback, whose body (lines 176-179 of model.js) clears the queued flag
and then runs the debounced function. -/
def tick (s : ModelState) : ModelState :=
  match s.timeouts with
  | [] => s
  | id :: rest =>
      callFnBody { s with timeouts := rest, queued := s.queued.set id false } id

/-- Dependencies argument of when: a single string or an array. -/
inductive Deps where
  | single (name : String)
  | many (names : List String)
deriving DecidableEq

/-- Lines 127-129 of model.js: a non-array dependencies argument is
wrapped in a one-element array. -/
def normalizeDeps : Deps → List String
  | Deps.single name => [name]
  | Deps.many names => names

/-- Lines 156-158 of model.js: dependencies.forEach registering the same
callFn on every dependency property. -/
def registerAll (cbs : List (String × List Nat)) (deps : List String) (id : Nat) :
    List (String × List Nat) :=
  deps.foldl (fun c property => onKey c property id) cbs

/-- Lines 124-159 of model.js, when(dependencies, fn, thisArg): normalize
dependencies, build the debounced resolver, invoke it once for
initialization, then register it on every dependency property. -/
def when (s : ModelState) (dependencies : Deps) (ctx : Option Nat) : ModelState :=
  let deps := normalizeDeps dependencies
  let id := s.resolvers.length
  let s1 : ModelState :=
    { s with resolvers := s.resolvers ++ [{ deps := deps, ctx := ctx }],
             queued := s.queued ++ [false] }
  let s2 := callDebounced s1 id
  { s2 with callbacks := registerAll s2.callbacks deps id }

/-- Freshly constructed model: both internal objects empty, nothing
scheduled, nothing recorded. -/
def initModel : ModelState :=
  { values := [], callbacks := [], resolvers := [], queued := [],
    timeouts := [], triggers := [], events := [] }

/-- Interactions available through the public API plus the event loop. -/
inductive Op where
  | setOp (a : SetArg)
  | whenOp (d : Deps) (ctx : Option Nat)
  | tickOp
deriving DecidableEq

/-- Effect of one interaction. -/
def step (s : ModelState) : Op → ModelState
  | Op.setOp a => set s a
  | Op.whenOp d c => when s d c
  | Op.tickOp => tick s

/-- Run a sequence of interactions from a given state. -/
def runFrom (s : ModelState) (ops : List Op) : ModelState :=
  ops.foldl step s

/-- Run a sequence of interactions on a fresh model. -/
def run (ops : List Op) : ModelState :=
  runFrom initModel ops

/-- Keys written by one set argument. -/
def argKeys : SetArg → List String
  | SetArg.key k _ => [k]
  | SetArg.obj o => o.map (fun kv => kv.1)

/-- Keys written by one interaction. -/
def opKeys : Op → List String
  | Op.setOp a => argKeys a
  | _ => []

/-- Keys written anywhere in a sequence of interactions. -/
def writtenKeys (ops : List Op) : List String :=
  (ops.map opKeys).flatten

/-- Resolver id of a recorded callback invocation. -/
def eventId : Event → Nat
  | Event.invoke id _ _ => id

/-- Number of recorded callback invocations of a given resolver. -/
def invokeCount (events : List Event) (id : Nat) : Nat :=
  events.countP (fun e => eventId e == id)

/-- State of one debounced wrapper in isolation (lines 171-182 of
model.js): the queued flag, the number of outstanding setTimeout
callbacks, and the number of times the wrapped function has run. -/
structure DebounceState where
  queued : Bool
  pending : Nat
  execCount : Nat
deriving DecidableEq

/-- State of a debounced wrapper right after debounce(func) returns:
var queued = false, nothing scheduled, func never run. -/
def debounceInit : DebounceState :=
  { queued := false, pending := 0, execCount := 0 }

/-- Calling the debounced wrapper (lines 173-181 of model.js): if the
queued flag is clear, set it and schedule one setTimeout callback;
otherwise do nothing. -/
def debounceCall (s : DebounceState) : DebounceState :=
  if s.queued then s else { s with queued := true, pending := s.pending + 1 }

/-- Running one outstanding setTimeout callback (lines 176-179 of
model.js): clear the queued flag, then run func; retriggers counts the
calls of the wrapper that func itself performs while it runs. -/
def runTimeout (s : DebounceState) (retriggers : Nat) : DebounceState :=
  match s.pending with
  | 0 => s
  | n + 1 =>
      debounceCall^[retriggers]
        { queued := false, pending := n, execCount := s.execCount + 1 }

/-- Unfolding of allAreDefined: the foldl computes the conjunction of the
definedness of all elements. -/
theorem allAreDefined_foldl_eq (arr : List Value) :
    ∀ b : Bool,
      arr.foldl (fun allDefined d => if isUndefinedOrNull d then false else allDefined) b =
        (b && arr.all (fun d => !isUndefinedOrNull d)) := by
  induction arr with
  | nil => intro b; simp
  | cons d rest ih =>
      intro b
      simp only [List.foldl_cons, List.all_cons, ih]
      cases hd : isUndefinedOrNull d <;> simp [hd]

/-- Characterization of allAreDefined: true exactly when no element is
the undefined or the null sentinel. -/
theorem allAreDefined_iff (arr : List Value) :
    allAreDefined arr = true ↔ ∀ v ∈ arr, v ≠ Value.undef ∧ v ≠ Value.null := by
  unfold allAreDefined
  rw [allAreDefined_foldl_eq]
  simp only [Bool.true_and, List.all_eq_true]
  constructor
  · intro h v hv
    have := h v hv
    cases v <;> simp_all [isUndefinedOrNull]
  · intro h v hv
    have := h v hv
    cases v <;> simp_all [isUndefinedOrNull]

theorem lookupCallbacks_updateCallbacks_self (cbs : List (String × List Nat)) (key : String)
    (l : List Nat) : lookupCallbacks (updateCallbacks cbs key l) key = some l := by
  induction cbs with
  | nil => simp [updateCallbacks, lookupCallbacks]
  | cons kv rest ih =>
      obtain ⟨k, l0⟩ := kv
      by_cases hk : k = key
      · simp [updateCallbacks, lookupCallbacks, hk]
      · simp [updateCallbacks, lookupCallbacks, hk, ih]

theorem lookupCallbacks_updateCallbacks_ne (cbs : List (String × List Nat)) (key p : String)
    (l : List Nat) (h : key ≠ p) :
    lookupCallbacks (updateCallbacks cbs key l) p = lookupCallbacks cbs p := by
  induction cbs with
  | nil => simp [updateCallbacks, lookupCallbacks, h]
  | cons kv rest ih =>
      obtain ⟨k, l0⟩ := kv
      by_cases hk : k = key
      · subst hk
        simp [updateCallbacks, lookupCallbacks, h]
      · simp [updateCallbacks, lookupCallbacks, hk, ih]

theorem registered_onKey_self (cbs : List (String × List Nat)) (key : String) (id : Nat) :
    registered (onKey cbs key id) key = registered cbs key ++ [id] := by
  simp [onKey, registered, lookupCallbacks_updateCallbacks_self]

theorem registered_onKey_ne (cbs : List (String × List Nat)) (key p : String) (id : Nat)
    (h : key ≠ p) : registered (onKey cbs key id) p = registered cbs p := by
  simp [onKey, registered, lookupCallbacks_updateCallbacks_ne cbs key p _ h]

/-- Registering the same listener once per dependency occurrence appends
one copy of the listener per occurrence of a property in the dependency
list, in order. -/
theorem registered_registerAll (deps : List String) (id : Nat) :
    ∀ cbs p, registered (registerAll cbs deps id) p =
      registered cbs p ++ List.replicate (deps.count p) id := by
  induction deps with
  | nil => intro cbs p; simp [registerAll]
  | cons d rest ih =>
      intro cbs p
      have hstep : registerAll cbs (d :: rest) id = registerAll (onKey cbs d id) rest id := rfl
      rw [hstep, ih]
      by_cases hd : d = p
      · subst hd
        rw [registered_onKey_self]
        rw [List.count_cons_self, List.append_assoc]
        simp [List.replicate_succ]
      · rw [registered_onKey_ne cbs d p id hd]
        have : (d :: rest).count p = rest.count p := by
          rw [List.count_cons]
          simp [hd]
        rw [this]

/-- Any entry of the registry after an update is either an original entry
or carries the newly written list. -/
theorem mem_updateCallbacks (cbs : List (String × List Nat)) (key : String) (l : List Nat)
    (p : String) (l0 : List Nat) (h : (p, l0) ∈ updateCallbacks cbs key l) :
    (p, l0) ∈ cbs ∨ l0 = l := by
  induction cbs with
  | nil => simp [updateCallbacks] at h; right; exact h.2
  | cons kv rest ih =>
      obtain ⟨k, lk⟩ := kv
      by_cases hk : k = key
      · simp only [updateCallbacks, hk, if_pos rfl] at h
        rcases List.mem_cons.mp h with h1 | h1
        · right; exact (Prod.mk.injEq _ _ _ _ ▸ h1).2
        · left; exact List.mem_cons_of_mem _ h1
      · simp only [updateCallbacks, if_neg hk] at h
        rcases List.mem_cons.mp h with h1 | h1
        · left; exact h1 ▸ List.mem_cons_self _ _
        · rcases ih h1 with h2 | h2
          · left; exact List.mem_cons_of_mem _ h2
          · right; exact h2

theorem callDebounced_values (s : ModelState) (id : Nat) :
    (callDebounced s id).values = s.values := by
  unfold callDebounced; dsimp only; split <;> rfl

theorem callDebounced_callbacks (s : ModelState) (id : Nat) :
    (callDebounced s id).callbacks = s.callbacks := by
  unfold callDebounced; dsimp only; split <;> rfl

theorem callDebounced_resolvers (s : ModelState) (id : Nat) :
    (callDebounced s id).resolvers = s.resolvers := by
  unfold callDebounced; dsimp only; split <;> rfl

theorem callDebounced_events (s : ModelState) (id : Nat) :
    (callDebounced s id).events = s.events := by
  unfold callDebounced; dsimp only; split <;> rfl

theorem callDebounced_triggers (s : ModelState) (id : Nat) :
    (callDebounced s id).triggers = s.triggers ++ [id] := by
  unfold callDebounced; dsimp only; split <;> rfl

theorem callDebounced_queued_length (s : ModelState) (id : Nat) :
    (callDebounced s id).queued.length = s.queued.length := by
  unfold callDebounced; dsimp only; split
  · rfl
  · simp [List.length_set]

theorem callDebounced_timeouts_cases (s : ModelState) (id : Nat) :
    (callDebounced s id).timeouts = s.timeouts ∨
      (callDebounced s id).timeouts = s.timeouts ++ [id] := by
  unfold callDebounced; dsimp only; split
  · left; rfl
  · right; rfl

theorem foldl_callDebounced_values (ids : List Nat) :
    ∀ s : ModelState, (ids.foldl callDebounced s).values = s.values := by
  induction ids with
  | nil => intro s; rfl
  | cons id rest ih => intro s; rw [List.foldl_cons, ih, callDebounced_values]

theorem foldl_callDebounced_callbacks (ids : List Nat) :
    ∀ s : ModelState, (ids.foldl callDebounced s).callbacks = s.callbacks := by
  induction ids with
  | nil => intro s; rfl
  | cons id rest ih => intro s; rw [List.foldl_cons, ih, callDebounced_callbacks]

theorem foldl_callDebounced_resolvers (ids : List Nat) :
    ∀ s : ModelState, (ids.foldl callDebounced s).resolvers = s.resolvers := by
  induction ids with
  | nil => intro s; rfl
  | cons id rest ih => intro s; rw [List.foldl_cons, ih, callDebounced_resolvers]

theorem foldl_callDebounced_events (ids : List Nat) :
    ∀ s : ModelState, (ids.foldl callDebounced s).events = s.events := by
  induction ids with
  | nil => intro s; rfl
  | cons id rest ih => intro s; rw [List.foldl_cons, ih, callDebounced_events]

theorem foldl_callDebounced_triggers (ids : List Nat) :
    ∀ s : ModelState, (ids.foldl callDebounced s).triggers = s.triggers ++ ids := by
  induction ids with
  | nil => intro s; simp
  | cons id rest ih =>
      intro s
      rw [List.foldl_cons, ih, callDebounced_triggers, List.append_assoc]
      rfl

theorem foldl_callDebounced_queued_length (ids : List Nat) :
    ∀ s : ModelState, (ids.foldl callDebounced s).queued.length = s.queued.length := by
  induction ids with
  | nil => intro s; rfl
  | cons id rest ih => intro s; rw [List.foldl_cons, ih, callDebounced_queued_length]

theorem mem_foldl_callDebounced_timeouts (ids : List Nat) :
    ∀ s : ModelState, ∀ x ∈ (ids.foldl callDebounced s).timeouts,
      x ∈ s.timeouts ∨ x ∈ ids := by
  induction ids with
  | nil => intro s x hx; left; exact hx
  | cons id rest ih =>
      intro s x hx
      rw [List.foldl_cons] at hx
      rcases ih (callDebounced s id) x hx with h | h
      · rcases callDebounced_timeouts_cases s id with hc | hc
        · rw [hc] at h; left; exact h
        · rw [hc] at h
          rcases List.mem_append.mp h with h1 | h1
          · left; exact h1
          · right
            rw [List.mem_singleton.mp h1]
            exact List.mem_cons_self _ _
      · right; exact List.mem_cons_of_mem _ h

theorem setKeyValue_values (s : ModelState) (key : String) (value : Value) :
    (setKeyValue s key value).values = (key, value) :: s.values := by
  unfold setKeyValue; dsimp only
  split
  · rfl
  · rw [foldl_callDebounced_values]

theorem setKeyValue_callbacks (s : ModelState) (key : String) (value : Value) :
    (setKeyValue s key value).callbacks = s.callbacks := by
  unfold setKeyValue; dsimp only
  split
  · rfl
  · rw [foldl_callDebounced_callbacks]

theorem setKeyValue_resolvers (s : ModelState) (key : String) (value : Value) :
    (setKeyValue s key value).resolvers = s.resolvers := by
  unfold setKeyValue; dsimp only
  split
  · rfl
  · rw [foldl_callDebounced_resolvers]

theorem setKeyValue_events (s : ModelState) (key : String) (value : Value) :
    (setKeyValue s key value).events = s.events := by
  unfold setKeyValue; dsimp only
  split
  · rfl
  · rw [foldl_callDebounced_events]

theorem setKeyValue_queued_length (s : ModelState) (key : String) (value : Value) :
    (setKeyValue s key value).queued.length = s.queued.length := by
  unfold setKeyValue; dsimp only
  split
  · rfl
  · rw [foldl_callDebounced_queued_length]

theorem setKeyValue_triggers (s : ModelState) (key : String) (value : Value) :
    (setKeyValue s key value).triggers = s.triggers ++ registered s.callbacks key := by
  unfold setKeyValue; dsimp only
  split
  · rename_i h
    rw [show registered s.callbacks key = [] from by simp [registered, h]]
    simp
  · rename_i ids h
    rw [foldl_callDebounced_triggers]
    rw [show registered s.callbacks key = ids from by simp [registered, h]]

theorem mem_setKeyValue_timeouts (s : ModelState) (key : String) (value : Value) :
    ∀ x ∈ (setKeyValue s key value).timeouts,
      x ∈ s.timeouts ∨ x ∈ registered s.callbacks key := by
  unfold setKeyValue; dsimp only
  split
  · intro x hx; left; exact hx
  · rename_i ids h
    intro x hx
    rcases mem_foldl_callDebounced_timeouts ids _ x hx with h1 | h1
    · left; exact h1
    · right
      rw [show registered s.callbacks key = ids from by simp [registered, h]]
      exact h1

theorem setObject_cons (s : ModelState) (kv : String × Value) (rest : List (String × Value)) :
    setObject s (kv :: rest) = setObject (setKeyValue s kv.1 kv.2) rest := rfl

theorem setObject_callbacks (obj : List (String × Value)) :
    ∀ s : ModelState, (setObject s obj).callbacks = s.callbacks := by
  induction obj with
  | nil => intro s; rfl
  | cons kv rest ih => intro s; rw [setObject_cons, ih, setKeyValue_callbacks]

theorem setObject_events (obj : List (String × Value)) :
    ∀ s : ModelState, (setObject s obj).events = s.events := by
  induction obj with
  | nil => intro s; rfl
  | cons kv rest ih => intro s; rw [setObject_cons, ih, setKeyValue_events]

theorem setObject_resolvers (obj : List (String × Value)) :
    ∀ s : ModelState, (setObject s obj).resolvers = s.resolvers := by
  induction obj with
  | nil => intro s; rfl
  | cons kv rest ih => intro s; rw [setObject_cons, ih, setKeyValue_resolvers]

theorem setObject_queued_length (obj : List (String × Value)) :
    ∀ s : ModelState, (setObject s obj).queued.length = s.queued.length := by
  induction obj with
  | nil => intro s; rfl
  | cons kv rest ih => intro s; rw [setObject_cons, ih, setKeyValue_queued_length]

/-- The trigger trace of an object write is one full notification round
per key, in key order, each using the (unchanging) registry. -/
theorem setObject_triggers (obj : List (String × Value)) :
    ∀ s : ModelState, (setObject s obj).triggers =
      s.triggers ++ (obj.map (fun kv => registered s.callbacks kv.1)).flatten := by
  induction obj with
  | nil => intro s; simp [setObject]
  | cons kv rest ih =>
      intro s
      rw [setObject_cons, ih, setKeyValue_triggers, setKeyValue_callbacks]
      simp [List.append_assoc]

theorem mem_setObject_timeouts (obj : List (String × Value)) :
    ∀ s : ModelState, ∀ x ∈ (setObject s obj).timeouts,
      x ∈ s.timeouts ∨ ∃ p, x ∈ registered s.callbacks p := by
  induction obj with
  | nil => intro s x hx; left; exact hx
  | cons kv rest ih =>
      intro s x hx
      rw [setObject_cons] at hx
      rcases ih (setKeyValue s kv.1 kv.2) x hx with h | h
      · rcases mem_setKeyValue_timeouts s kv.1 kv.2 x h with h1 | h1
        · left; exact h1
        · right; exact ⟨kv.1, h1⟩
      · obtain ⟨p, hp⟩ := h
        rw [setKeyValue_callbacks] at hp
        right; exact ⟨p, hp⟩

theorem when_values (s : ModelState) (d : Deps) (ctx : Option Nat) :
    (when s d ctx).values = s.values := by
  simp [when, callDebounced_values]

theorem when_events (s : ModelState) (d : Deps) (ctx : Option Nat) :
    (when s d ctx).events = s.events := by
  simp [when, callDebounced_events]

theorem when_resolvers (s : ModelState) (d : Deps) (ctx : Option Nat) :
    (when s d ctx).resolvers =
      s.resolvers ++ [{ deps := normalizeDeps d, ctx := ctx }] := by
  simp [when, callDebounced_resolvers]

theorem when_triggers (s : ModelState) (d : Deps) (ctx : Option Nat) :
    (when s d ctx).triggers = s.triggers ++ [s.resolvers.length] := by
  simp [when, callDebounced_triggers]

theorem when_callbacks (s : ModelState) (d : Deps) (ctx : Option Nat) :
    (when s d ctx).callbacks =
      registerAll s.callbacks (normalizeDeps d) s.resolvers.length := by
  simp [when, callDebounced_callbacks]

theorem when_queued_length (s : ModelState) (d : Deps) (ctx : Option Nat) :
    (when s d ctx).queued.length = s.queued.length + 1 := by
  simp [when, callDebounced_queued_length]

theorem when_timeouts_cases (s : ModelState) (d : Deps) (ctx : Option Nat) :
    (when s d ctx).timeouts = s.timeouts ∨
      (when s d ctx).timeouts = s.timeouts ++ [s.resolvers.length] := by
  unfold when; dsimp only
  rcases callDebounced_timeouts_cases
      { s with resolvers := s.resolvers ++ [{ deps := normalizeDeps d, ctx := ctx }],
               queued := s.queued ++ [false] } s.resolvers.length with h | h
  · left; exact h
  · right; exact h

/-- Under the structural invariant that the queued list tracks the
resolver list, the registration-time trigger always schedules the new
resolver: its fresh queued flag is false. -/
theorem when_timeouts_eq (s : ModelState) (d : Deps) (ctx : Option Nat)
    (hq : s.queued.length = s.resolvers.length) :
    (when s d ctx).timeouts = s.timeouts ++ [s.resolvers.length] := by
  unfold when callDebounced; dsimp only
  have hget : (s.queued ++ [false]).getD s.resolvers.length true = false := by
    rw [List.getD_eq_getElem?_getD, ← hq]
    rw [List.getElem?_concat_length]
    rfl
  rw [hget]
  simp

theorem callFnBody_values (s : ModelState) (id : Nat) :
    (callFnBody s id).values = s.values := by
  unfold callFnBody; dsimp only
  split
  · rfl
  · split <;> rfl

theorem callFnBody_callbacks (s : ModelState) (id : Nat) :
    (callFnBody s id).callbacks = s.callbacks := by
  unfold callFnBody; dsimp only
  split
  · rfl
  · split <;> rfl

theorem callFnBody_resolvers (s : ModelState) (id : Nat) :
    (callFnBody s id).resolvers = s.resolvers := by
  unfold callFnBody; dsimp only
  split
  · rfl
  · split <;> rfl

theorem callFnBody_timeouts (s : ModelState) (id : Nat) :
    (callFnBody s id).timeouts = s.timeouts := by
  unfold callFnBody; dsimp only
  split
  · rfl
  · split <;> rfl

theorem callFnBody_triggers (s : ModelState) (id : Nat) :
    (callFnBody s id).triggers = s.triggers := by
  unfold callFnBody; dsimp only
  split
  · rfl
  · split <;> rfl

theorem callFnBody_queued (s : ModelState) (id : Nat) :
    (callFnBody s id).queued = s.queued := by
  unfold callFnBody; dsimp only
  split
  · rfl
  · split <;> rfl

theorem callFnBody_events_cases (s : ModelState) (id : Nat) :
    (callFnBody s id).events = s.events ∨
      ∃ r : Resolver, s.resolvers.get? id = some r ∧
        allAreDefined (r.deps.map (fun dep => get s dep)) = true ∧
        (callFnBody s id).events =
          s.events ++ [Event.invoke id r.ctx (r.deps.map (fun dep => get s dep))] := by
  unfold callFnBody; dsimp only
  split
  · left; rfl
  · rename_i r hr
    split
    · rename_i hall
      right; exact ⟨r, hr, hall, rfl⟩
    · left; rfl

theorem get_setKeyValue_self (s : ModelState) (key : String) (value : Value) :
    get (setKeyValue s key value) key = value := by
  unfold get
  rw [setKeyValue_values]
  simp [lookupValue]

theorem tick_values (s : ModelState) : (tick s).values = s.values := by
  unfold tick
  split
  · rfl
  · rw [callFnBody_values]

theorem tick_callbacks (s : ModelState) : (tick s).callbacks = s.callbacks := by
  unfold tick
  split
  · rfl
  · rw [callFnBody_callbacks]

theorem tick_resolvers (s : ModelState) : (tick s).resolvers = s.resolvers := by
  unfold tick
  split
  · rfl
  · rw [callFnBody_resolvers]

/-- Reading a property only depends on the value store. -/
theorem get_congr (s1 s2 : ModelState) (h : s1.values = s2.values) (key : String) :
    get s1 key = get s2 key := by
  unfold get
  rw [h]

/-- The resolver body, given its resolver record: if all dependency
values are defined the callback invocation is recorded, otherwise the
state is unchanged. -/
theorem callFnBody_spec (s : ModelState) (id : Nat) (r : Resolver)
    (hr : s.resolvers.get? id = some r) :
    callFnBody s id =
      if allAreDefined (r.deps.map (fun dep => get s dep)) then
        { s with events := s.events ++ [Event.invoke id r.ctx (r.deps.map (fun dep => get s dep))] }
      else s := by
  unfold callFnBody
  rw [hr]

/-- Complete description of a when call under the structural invariant
that the queued list has one flag per resolver: the new resolver is
appended, its flag is created false and immediately set by the
initialization trigger, the trigger call is recorded and scheduled, and
the resolver is registered once per dependency occurrence. -/
theorem when_eq_of_length (s : ModelState) (d : Deps) (ctx : Option Nat)
    (hq : s.queued.length = s.resolvers.length) :
    when s d ctx =
      { values := s.values,
        callbacks := registerAll s.callbacks (normalizeDeps d) s.resolvers.length,
        resolvers := s.resolvers ++ [{ deps := normalizeDeps d, ctx := ctx }],
        queued := (s.queued ++ [false]).set s.resolvers.length true,
        timeouts := s.timeouts ++ [s.resolvers.length],
        triggers := s.triggers ++ [s.resolvers.length],
        events := s.events } := by
  unfold when callDebounced
  dsimp only
  have hget : (s.queued ++ [false]).getD s.resolvers.length true = false := by
    rw [List.getD_eq_getElem?_getD, ← hq, List.getElem?_concat_length]
    rfl
  rw [hget]
  simp

/-- Popping the head of the timeout queue: the turn clears the queued
flag of the popped resolver and runs its body. -/
theorem tick_cons (s : ModelState) (id : Nat) (rest : List Nat) (ht : s.timeouts = id :: rest) :
    tick s = callFnBody { s with timeouts := rest, queued := s.queued.set id false } id := by
  unfold tick
  rw [ht]

theorem callFnBody_events_invoke (s : ModelState) (id : Nat) (r : Resolver)
    (hr : s.resolvers.get? id = some r)
    (hall : allAreDefined (r.deps.map (fun dep => get s dep)) = true) :
    (callFnBody s id).events =
      s.events ++ [Event.invoke id r.ctx (r.deps.map (fun dep => get s dep))] := by
  rw [callFnBody_spec s id r hr, hall]
  simp

theorem callFnBody_events_skip (s : ModelState) (id : Nat) (r : Resolver)
    (hr : s.resolvers.get? id = some r)
    (hall : allAreDefined (r.deps.map (fun dep => get s dep)) = false) :
    (callFnBody s id).events = s.events := by
  rw [callFnBody_spec s id r hr, hall]
  simp

/-- Event trace of a whole event-loop turn that fires its resolver: the
popped resolver reads current values and records one invocation. -/
theorem tick_events_invoke (s : ModelState) (id : Nat) (rest : List Nat) (r : Resolver)
    (ht : s.timeouts = id :: rest) (hr : s.resolvers.get? id = some r)
    (hall : allAreDefined (r.deps.map (fun dep => get s dep)) = true) :
    (tick s).events = s.events ++ [Event.invoke id r.ctx (r.deps.map (fun dep => get s dep))] := by
  rw [tick_cons s id rest ht]
  have hr2 : ({ s with timeouts := rest, queued := s.queued.set id false } :
      ModelState).resolvers.get? id = some r := hr
  have hvals : ({ s with timeouts := rest, queued := s.queued.set id false } :
      ModelState).values = s.values := rfl
  have hargs : r.deps.map
      (fun dep => get { s with timeouts := rest, queued := s.queued.set id false } dep) =
      r.deps.map (fun dep => get s dep) :=
    List.map_congr_left (fun dep _ => get_congr _ s hvals dep)
  have hall2 : allAreDefined (r.deps.map
      (fun dep => get { s with timeouts := rest, queued := s.queued.set id false } dep)) = true := by
    rw [hargs]; exact hall
  rw [callFnBody_events_invoke _ id r hr2 hall2]
  dsimp only
  rw [hargs]

/-- Event trace of a whole event-loop turn whose resolver is skipped
because some dependency is undefined or null: nothing is recorded. -/
theorem tick_events_skip (s : ModelState) (id : Nat) (rest : List Nat) (r : Resolver)
    (ht : s.timeouts = id :: rest) (hr : s.resolvers.get? id = some r)
    (hall : allAreDefined (r.deps.map (fun dep => get s dep)) = false) :
    (tick s).events = s.events := by
  rw [tick_cons s id rest ht]
  have hr2 : ({ s with timeouts := rest, queued := s.queued.set id false } :
      ModelState).resolvers.get? id = some r := hr
  have hvals : ({ s with timeouts := rest, queued := s.queued.set id false } :
      ModelState).values = s.values := rfl
  have hargs : r.deps.map
      (fun dep => get { s with timeouts := rest, queued := s.queued.set id false } dep) =
      r.deps.map (fun dep => get s dep) :=
    List.map_congr_left (fun dep _ => get_congr _ s hvals dep)
  have hall2 : allAreDefined (r.deps.map
      (fun dep => get { s with timeouts := rest, queued := s.queued.set id false } dep)) = false := by
    rw [hargs]; exact hall
  exact callFnBody_events_skip _ id r hr2 hall2

/-- Running the event-loop turn scheduled by a when registration, when
nothing else is pending and all dependencies are currently defined,
records exactly one callback invocation with the current dependency
values in dependency order. -/
theorem tick_when_events (s : ModelState) (d : Deps) (ctx : Option Nat)
    (hq : s.queued.length = s.resolvers.length) (ht : s.timeouts = [])
    (hall : allAreDefined ((normalizeDeps d).map (fun dep => get s dep)) = true) :
    (tick (when s d ctx)).events =
      s.events ++
        [Event.invoke s.resolvers.length ctx ((normalizeDeps d).map (fun dep => get s dep))] := by
  have hw := when_eq_of_length s d ctx hq
  have hwt : (when s d ctx).timeouts = s.resolvers.length :: [] := by
    rw [hw]
    simp [ht]
  have hr : (when s d ctx).resolvers.get? s.resolvers.length =
      some { deps := normalizeDeps d, ctx := ctx } := by
    rw [hw]
    dsimp only
    rw [List.get?_eq_getElem?, List.getElem?_concat_length]
  have hvals : (when s d ctx).values = s.values := when_values s d ctx
  have hargs : (normalizeDeps d).map (fun dep => get (when s d ctx) dep) =
      (normalizeDeps d).map (fun dep => get s dep) :=
    List.map_congr_left (fun dep _ => get_congr _ s hvals dep)
  have hall2 : allAreDefined ((normalizeDeps d).map (fun dep => get (when s d ctx) dep)) = true := by
    rw [hargs]; exact hall
  rw [tick_events_invoke (when s d ctx) s.resolvers.length []
    { deps := normalizeDeps d, ctx := ctx } hwt hr hall2]
  dsimp only
  rw [when_events s d ctx, hargs]

theorem invokeCount_append_invoke (events : List Event) (id : Nat) (ctx : Option Nat)
    (args : List Value) :
    invokeCount (events ++ [Event.invoke id ctx args]) id = invokeCount events id + 1 := by
  simp [invokeCount, List.countP_append, List.countP_cons, eventId]

theorem invokeCount_append_invoke_ne (events : List Event) (j id : Nat) (h : j ≠ id)
    (ctx : Option Nat) (args : List Value) :
    invokeCount (events ++ [Event.invoke j ctx args]) id = invokeCount events id := by
  simp [invokeCount, List.countP_append, List.countP_cons, eventId, h]

/-- A resolver id with no registration anywhere, nothing pending in the
timeout queue, and an index inside the resolver list can never be
scheduled again. -/
def quiescent (s : ModelState) (id : Nat) : Prop :=
  (∀ p, id ∉ registered s.callbacks p) ∧ id ∉ s.timeouts ∧ id < s.resolvers.length

theorem quiescent_setKeyValue (s : ModelState) (id : Nat) (key : String) (value : Value)
    (h : quiescent s id) : quiescent (setKeyValue s key value) id := by
  obtain ⟨hcb, htm, hlen⟩ := h
  refine ⟨?_, ?_, ?_⟩
  · intro p
    rw [setKeyValue_callbacks]
    exact hcb p
  · intro hmem
    rcases mem_setKeyValue_timeouts s key value id hmem with h1 | h1
    · exact htm h1
    · exact hcb key h1
  · rw [setKeyValue_resolvers]
    exact hlen

theorem quiescent_setObject (obj : List (String × Value)) :
    ∀ s : ModelState, ∀ id : Nat, quiescent s id → quiescent (setObject s obj) id := by
  induction obj with
  | nil => intro s id h; exact h
  | cons kv rest ih =>
      intro s id h
      rw [setObject_cons]
      exact ih _ id (quiescent_setKeyValue s id kv.1 kv.2 h)

theorem quiescent_when (s : ModelState) (id : Nat) (d : Deps) (ctx : Option Nat)
    (h : quiescent s id) : quiescent (when s d ctx) id := by
  obtain ⟨hcb, htm, hlen⟩ := h
  have hne : id ≠ s.resolvers.length := Nat.ne_of_lt hlen
  refine ⟨?_, ?_, ?_⟩
  · intro p
    rw [when_callbacks, registered_registerAll]
    intro hmem
    rcases List.mem_append.mp hmem with h1 | h1
    · exact hcb p h1
    · exact hne (List.eq_of_mem_replicate h1)
  · intro hmem
    rcases when_timeouts_cases s d ctx with hc | hc
    · rw [hc] at hmem
      exact htm hmem
    · rw [hc] at hmem
      rcases List.mem_append.mp hmem with h1 | h1
      · exact htm h1
      · exact hne (List.mem_singleton.mp h1)
  · rw [when_resolvers, List.length_append]
    exact Nat.lt_succ_of_lt hlen

theorem quiescent_tick (s : ModelState) (id : Nat) (h : quiescent s id) :
    quiescent (tick s) id ∧ invokeCount (tick s).events id = invokeCount s.events id := by
  obtain ⟨hcb, htm, hlen⟩ := h
  cases ht : s.timeouts with
  | nil =>
      have : tick s = s := by unfold tick; rw [ht]
      rw [this]
      exact ⟨⟨hcb, htm, hlen⟩, rfl⟩
  | cons j rest =>
      have hj : j ≠ id := by
        intro hEq
        exact htm (ht ▸ hEq ▸ List.mem_cons_self j rest)
      have hrest : id ∉ rest := fun hmem => htm (ht ▸ List.mem_cons_of_mem j hmem)
      rw [tick_cons s j rest ht]
      constructor
      · refine ⟨?_, ?_, ?_⟩
        · intro p
          rw [callFnBody_callbacks]
          exact hcb p
        · rw [callFnBody_timeouts]
          exact hrest
        · rw [callFnBody_resolvers]
          exact hlen
      · rcases callFnBody_events_cases
            { s with timeouts := rest, queued := s.queued.set j false } j with hc | hc
        · rw [hc]
        · obtain ⟨r, _, _, hc⟩ := hc
          rw [hc]
          exact invokeCount_append_invoke_ne s.events j id hj _ _

theorem quiescent_step (s : ModelState) (id : Nat) (op : Op) (h : quiescent s id) :
    quiescent (step s op) id ∧ invokeCount (step s op).events id = invokeCount s.events id := by
  cases op with
  | setOp a =>
      cases a with
      | key k v =>
          refine ⟨quiescent_setKeyValue s id k v h, ?_⟩
          show invokeCount (setKeyValue s k v).events id = _
          rw [setKeyValue_events]
      | obj o =>
          refine ⟨quiescent_setObject o s id h, ?_⟩
          show invokeCount (setObject s o).events id = _
          rw [setObject_events]
  | whenOp d ctx =>
      refine ⟨quiescent_when s id d ctx h, ?_⟩
      show invokeCount (when s d ctx).events id = _
      rw [when_events]
  | tickOp => exact quiescent_tick s id h

theorem quiescent_runFrom (ops : List Op) :
    ∀ s : ModelState, ∀ id : Nat, quiescent s id →
      invokeCount (runFrom s ops).events id = invokeCount s.events id := by
  induction ops with
  | nil => intro s id _; rfl
  | cons op rest ih =>
      intro s id h
      obtain ⟨h1, h2⟩ := quiescent_step s id op h
      show invokeCount (runFrom (step s op) rest).events id = _
      rw [ih (step s op) id h1, h2]

/-- Every listener list stored in the registry of a model state. -/
def RegistryNonempty (s : ModelState) : Prop :=
  ∀ p l, (p, l) ∈ s.callbacks → l ≠ []

theorem nonempty_onKey (cbs : List (String × List Nat)) (key : String) (id : Nat)
    (h : ∀ p l, (p, l) ∈ cbs → l ≠ []) :
    ∀ p l, (p, l) ∈ onKey cbs key id → l ≠ [] := by
  intro p l hmem
  rcases mem_updateCallbacks cbs key (registered cbs key ++ [id]) p l hmem with h1 | h1
  · exact h p l h1
  · rw [h1]
    simp

theorem nonempty_registerAll (deps : List String) (id : Nat) :
    ∀ cbs, (∀ p l, (p, l) ∈ cbs → l ≠ []) →
      ∀ p l, (p, l) ∈ registerAll cbs deps id → l ≠ [] := by
  induction deps with
  | nil => intro cbs h; exact h
  | cons d rest ih =>
      intro cbs h
      exact ih (onKey cbs d id) (nonempty_onKey cbs d id h)

theorem registryNonempty_step (s : ModelState) (op : Op) (h : RegistryNonempty s) :
    RegistryNonempty (step s op) := by
  cases op with
  | setOp a =>
      cases a with
      | key k v =>
          intro p l hmem
          rw [show (step s (Op.setOp (SetArg.key k v))).callbacks = s.callbacks from
            setKeyValue_callbacks s k v] at hmem
          exact h p l hmem
      | obj o =>
          intro p l hmem
          rw [show (step s (Op.setOp (SetArg.obj o))).callbacks = s.callbacks from
            setObject_callbacks o s] at hmem
          exact h p l hmem
  | whenOp d ctx =>
      intro p l hmem
      rw [show (step s (Op.whenOp d ctx)).callbacks =
          registerAll s.callbacks (normalizeDeps d) s.resolvers.length from
        when_callbacks s d ctx] at hmem
      exact nonempty_registerAll (normalizeDeps d) s.resolvers.length s.callbacks h p l hmem
  | tickOp =>
      intro p l hmem
      rw [show (step s Op.tickOp).callbacks = s.callbacks from tick_callbacks s] at hmem
      exact h p l hmem

theorem registryNonempty_runFrom (ops : List Op) :
    ∀ s : ModelState, RegistryNonempty s → RegistryNonempty (runFrom s ops) := by
  induction ops with
  | nil => intro s h; exact h
  | cons op rest ih =>
      intro s h
      exact ih (step s op) (registryNonempty_step s op h)

theorem lookupValue_setKeyValue_ne (s : ModelState) (key k : String) (v : Value)
    (h : key ≠ k) : lookupValue (setKeyValue s key v).values k = lookupValue s.values k := by
  rw [setKeyValue_values]
  simp [lookupValue, h]

theorem lookupValue_setObject_not_mem (obj : List (String × Value)) :
    ∀ s : ModelState, ∀ k : String, k ∉ obj.map Prod.fst →
      lookupValue (setObject s obj).values k = lookupValue s.values k := by
  induction obj with
  | nil => intro s k _; rfl
  | cons kv rest ih =>
      intro s k hk
      rw [List.map_cons, List.mem_cons] at hk
      push_neg at hk
      rw [setObject_cons, ih _ k hk.2, lookupValue_setKeyValue_ne s kv.1 k kv.2 (fun hEq => hk.1 hEq.symm)]

theorem lookupValue_step_not_written (s : ModelState) (op : Op) (k : String)
    (h : k ∉ opKeys op) : lookupValue (step s op).values k = lookupValue s.values k := by
  cases op with
  | setOp a =>
      cases a with
      | key key v =>
          have hne : key ≠ k := by
            intro hEq
            exact h (hEq ▸ List.mem_singleton.mpr rfl)
          exact lookupValue_setKeyValue_ne s key k v hne
      | obj o => exact lookupValue_setObject_not_mem o s k h
  | whenOp d ctx =>
      show lookupValue (when s d ctx).values k = _
      rw [when_values]
  | tickOp =>
      show lookupValue (tick s).values k = _
      rw [tick_values]

theorem lookupValue_runFrom_not_written (ops : List Op) :
    ∀ s : ModelState, ∀ k : String, k ∉ writtenKeys ops →
      lookupValue (runFrom s ops).values k = lookupValue s.values k := by
  induction ops with
  | nil => intro s k _; rfl
  | cons op rest ih =>
      intro s k hk
      have hk2 : k ∉ opKeys op ∧ k ∉ writtenKeys rest := by
        constructor
        · intro hmem
          exact hk (List.mem_append.mpr (Or.inl hmem))
        · intro hmem
          exact hk (List.mem_append.mpr (Or.inr hmem))
      show lookupValue (runFrom (step s op) rest).values k = _
      rw [ih (step s op) k hk2.2, lookupValue_step_not_written s op k hk2.1]

theorem debounceCall_queued (s : DebounceState) : (debounceCall s).queued = true := by
  unfold debounceCall
  split
  · rename_i h; exact h
  · rfl

theorem debounceCall_of_queued (s : DebounceState) (h : s.queued = true) :
    debounceCall s = s := by
  unfold debounceCall
  rw [h]
  simp

/-- Once a burst has started, further trigger calls in the same burst are
absorbed: iterating the wrapper at least once equals calling it once. -/
theorem iterate_debounceCall_succ (k : Nat) :
    ∀ s : DebounceState, debounceCall^[k + 1] s = debounceCall s := by
  induction k with
  | zero => intro s; rfl
  | succ k ih =>
      intro s
      rw [Function.iterate_succ_apply, ih (debounceCall s),
        debounceCall_of_queued _ (debounceCall_queued s)]

theorem allAreDefined_replicate_undef (m : Nat) (hm : 1 ≤ m) :
    allAreDefined (List.replicate m Value.undef) = false := by
  have h : ¬ allAreDefined (List.replicate m Value.undef) = true := by
    rw [allAreDefined_iff]
    intro h
    have hmem : Value.undef ∈ List.replicate m Value.undef :=
      List.mem_replicate.mpr ⟨by omega, rfl⟩
    exact (h Value.undef hmem).1 rfl
  exact Bool.eq_false_iff.mpr h

theorem allAreDefined_replicate_defined (m : Nat) (v : Value) (hu : v ≠ Value.undef)
    (hn : v ≠ Value.null) : allAreDefined (List.replicate m v) = true := by
  rw [allAreDefined_iff]
  intro x hx
  rw [List.eq_of_mem_replicate hx]
  exact ⟨hu, hn⟩

theorem lookup_eq_of_registered_ne_nil (cbs : List (String × List Nat)) (p : String)
    (h : registered cbs p ≠ []) : lookupCallbacks cbs p = some (registered cbs p) := by
  unfold registered at h ⊢
  cases hc : lookupCallbacks cbs p with
  | none => rw [hc] at h; simp at h
  | some l => simp [hc]

/-- Once the queued flag of a resolver is set, repeated trigger calls for
it leave the timeout queue and flag list unchanged. -/
theorem foldl_callDebounced_replicate_aux (m : Nat) :
    ∀ s : ModelState, ∀ id : Nat, s.queued.getD id true = true →
      ((List.replicate m id).foldl callDebounced s).timeouts = s.timeouts ∧
        ((List.replicate m id).foldl callDebounced s).queued = s.queued := by
  induction m with
  | zero => intro s id _; exact ⟨rfl, rfl⟩
  | succ k ih =>
      intro s id h
      rw [List.replicate_succ, List.foldl_cons]
      have hcd : callDebounced s id = { s with triggers := s.triggers ++ [id] } := by
        unfold callDebounced
        dsimp only
        rw [h]
        simp
      rw [hcd]
      exact ih { s with triggers := s.triggers ++ [id] } id h

/-- Calling the same debounced trigger any positive number of times in a
burst schedules its resolver exactly once. -/
theorem foldl_callDebounced_replicate_timeouts (m : Nat) (hm : 1 ≤ m) (s : ModelState)
    (id : Nat) (h : id < s.queued.length) (h0 : s.queued.getD id true = false) :
    ((List.replicate m id).foldl callDebounced s).timeouts = s.timeouts ++ [id] := by
  obtain ⟨k, rfl⟩ : ∃ k, m = k + 1 := ⟨m - 1, by omega⟩
  rw [List.replicate_succ, List.foldl_cons]
  have hcd : callDebounced s id =
      { s with triggers := s.triggers ++ [id], queued := s.queued.set id true,
               timeouts := s.timeouts ++ [id] } := by
    unfold callDebounced
    dsimp only
    rw [h0]
    simp
  rw [hcd]
  have hq2 : (s.queued.set id true).getD id true = true := by
    rw [List.getD_eq_getElem?_getD, List.getElem?_set_self]
    · rfl
    · exact h
  exact (foldl_callDebounced_replicate_aux k _ id hq2).1

/-- A resolver is skipped without any recorded invocation when some
dependency value is undefined or null; only the flag and queue change. -/
theorem tick_skip_state (s : ModelState) (id : Nat) (rest : List Nat) (r : Resolver)
    (ht : s.timeouts = id :: rest) (hr : s.resolvers.get? id = some r)
    (hall : allAreDefined (r.deps.map (fun dep => get s dep)) = false) :
    tick s = { s with timeouts := rest, queued := s.queued.set id false } := by
  rw [tick_cons s id rest ht]
  have hr2 : ({ s with timeouts := rest, queued := s.queued.set id false } :
      ModelState).resolvers.get? id = some r := hr
  have hvals : ({ s with timeouts := rest, queued := s.queued.set id false } :
      ModelState).values = s.values := rfl
  have hargs : r.deps.map
      (fun dep => get { s with timeouts := rest, queued := s.queued.set id false } dep) =
      r.deps.map (fun dep => get s dep) :=
    List.map_congr_left (fun dep _ => get_congr _ s hvals dep)
  have hall2 : allAreDefined (r.deps.map
      (fun dep => get { s with timeouts := rest, queued := s.queued.set id false } dep)) =
      false := by
    rw [hargs]; exact hall
  rw [callFnBody_spec _ id r hr2, hall2]
  simp

/-- Claim C1: whenever a when-registered resolver runs (its scheduled
turn pops it from the timeout queue), it reads the current value of each
dependency property in dependency-list order, and records an invocation
of the callback with that ordered argument list (carrying its context as
this-binding) if and only if every value is defined, i.e. neither the
undefined nor the null sentinel; otherwise the state is unchanged except
for the popped queue and cleared flag — the callback is silently skipped
and no error is possible. -/
theorem c1_resolver_reads_current_values (s : ModelState) (id : Nat) (rest : List Nat)
    (r : Resolver) (ht : s.timeouts = id :: rest) (hr : s.resolvers.get? id = some r) :
    (allAreDefined (r.deps.map (fun dep => get s dep)) = true →
      (tick s).events =
        s.events ++ [Event.invoke id r.ctx (r.deps.map (fun dep => get s dep))])
    ∧ (allAreDefined (r.deps.map (fun dep => get s dep)) = false →
      tick s = { s with timeouts := rest, queued := s.queued.set id false })
    ∧ (allAreDefined (r.deps.map (fun dep => get s dep)) = true ↔
        ∀ v ∈ r.deps.map (fun dep => get s dep), v ≠ Value.undef ∧ v ≠ Value.null) :=
  ⟨fun hall => tick_events_invoke s id rest r ht hr hall,
   fun hall => tick_skip_state s id rest r ht hr hall,
   allAreDefined_iff _⟩

/-- Witness for C1: a concrete state with one pending resolver on a
defined property records exactly one invocation with the current value. -/
theorem c1_witness :
    (tick { values := [("a", Value.num 5)], callbacks := [("a", [0])],
            resolvers := [{ deps := ["a"], ctx := none }], queued := [true],
            timeouts := [0], triggers := [0], events := [] }).events =
      [Event.invoke 0 none [Value.num 5]] :=
  (c1_resolver_reads_current_values
    { values := [("a", Value.num 5)], callbacks := [("a", [0])],
      resolvers := [{ deps := ["a"], ctx := none }], queued := [true],
      timeouts := [0], triggers := [0], events := [] }
    0 [] { deps := ["a"], ctx := none } rfl rfl).1 (by decide)

/-- Claim C2: the debounce wrapper starts with a clear pending flag; one
or more trigger calls in a burst leave exactly one scheduled execution
and none performed yet; running that execution performs the action
exactly once and clears the flag beforehand, so a trigger arriving while
the action itself runs schedules one new independent execution. -/
theorem c2_debounce_coalesces (n k : Nat) (hn : 1 ≤ n) :
    debounceInit.queued = false
    ∧ debounceCall^[n] debounceInit = { queued := true, pending := 1, execCount := 0 }
    ∧ runTimeout (debounceCall^[n] debounceInit) 0 =
        { queued := false, pending := 0, execCount := 1 }
    ∧ (1 ≤ k → runTimeout (debounceCall^[n] debounceInit) k =
        { queued := true, pending := 1, execCount := 1 }) := by
  obtain ⟨j, rfl⟩ : ∃ j, n = j + 1 := ⟨n - 1, by omega⟩
  have h1 : debounceCall^[j + 1] debounceInit =
      { queued := true, pending := 1, execCount := 0 } := by
    rw [iterate_debounceCall_succ]
    rfl
  refine ⟨rfl, h1, ?_, ?_⟩
  · rw [h1]
    rfl
  · intro hk
    obtain ⟨i, rfl⟩ : ∃ i, k = i + 1 := ⟨k - 1, by omega⟩
    rw [h1]
    show debounceCall^[i + 1] { queued := false, pending := 0, execCount := 1 } = _
    rw [iterate_debounceCall_succ]
    rfl

/-- Witness for C2: two trigger calls, then the scheduled run with one
retrigger during the action. -/
theorem c2_witness :
    1 ≤ 2 ∧ runTimeout (debounceCall^[2] debounceInit) 1 =
      { queued := true, pending := 1, execCount := 1 } :=
  ⟨by omega, (c2_debounce_coalesces 2 1 (by omega)).2.2.2 (by omega)⟩

/-- Claim C3: immediately after set(k, v), get(k) returns v, for every
prior state — including overwriting a defined value and storing the null
or undefined sentinel themselves. -/
theorem c3_set_get_roundtrip (s : ModelState) (k : String) (v : Value) :
    get (set s (SetArg.key k v)) k = v :=
  get_setKeyValue_self s k v

/-- Claim C4: set(key, value) first stores the value and then invokes,
synchronously and on the already-updated store, every listener
registered for the key in registration order (the listener list grows by
appending, so list order is registration order); listeners receive no
payload; when no listener list exists for the key, none are invoked; no
callback invocation is recorded synchronously and the registry itself is
untouched. -/
theorem c4_set_stores_then_notifies (s : ModelState) (key : String) (value : Value) :
    set s (SetArg.key key value) =
      (registered s.callbacks key).foldl callDebounced
        { s with values := (key, value) :: s.values }
    ∧ (set s (SetArg.key key value)).values = (key, value) :: s.values
    ∧ (set s (SetArg.key key value)).triggers = s.triggers ++ registered s.callbacks key
    ∧ (lookupCallbacks s.callbacks key = none →
        (set s (SetArg.key key value)).triggers = s.triggers)
    ∧ (set s (SetArg.key key value)).events = s.events
    ∧ (set s (SetArg.key key value)).callbacks = s.callbacks
    ∧ (∀ cbs : List (String × List Nat), ∀ id : Nat,
        registered (onKey cbs key id) key = registered cbs key ++ [id]) := by
  refine ⟨?_, setKeyValue_values s key value, setKeyValue_triggers s key value, ?_,
    setKeyValue_events s key value, setKeyValue_callbacks s key value,
    fun cbs id => registered_onKey_self cbs key id⟩
  · show setKeyValue s key value = _
    unfold setKeyValue
    dsimp only
    cases hc : lookupCallbacks s.callbacks key with
    | none =>
        rw [show registered s.callbacks key = [] from by simp [registered, hc]]
        rfl
    | some ids =>
        rw [show registered s.callbacks key = ids from by simp [registered, hc]]
  · intro hnone
    show (setKeyValue s key value).triggers = s.triggers
    rw [setKeyValue_triggers,
      show registered s.callbacks key = [] from by simp [registered, hnone]]
    simp

/-- Witness for C4: setting a key with no registered listeners stores the
value and triggers nothing. -/
theorem c4_witness :
    (set initModel (SetArg.key "a" (Value.num 1))).triggers = [] :=
  (c4_set_stores_then_notifies initModel "a" (Value.num 1)).2.2.2.1 rfl

/-- Claim C6: the object overload of set iterates the supplied mapping in
its key order, applying the single-key store-and-notify step for each
key in that order; each key's full notification round (its listener list
read from the registry, which set never changes) completes before the
next key is processed, so the trigger trace is the concatenation of one
round per key, not a batch. -/
theorem c6_set_object_sequential (s : ModelState) (obj : List (String × Value)) :
    set s (SetArg.obj obj) = obj.foldl (fun st kv => setKeyValue st kv.1 kv.2) s
    ∧ (∀ kv : String × Value, ∀ rest : List (String × Value),
        setObject s (kv :: rest) = setObject (setKeyValue s kv.1 kv.2) rest)
    ∧ (set s (SetArg.obj obj)).triggers =
        s.triggers ++ (obj.map (fun kv => registered s.callbacks kv.1)).flatten :=
  ⟨rfl, fun _ _ => rfl, setObject_triggers obj s⟩

/-- Claim C7: get is total and never raises: a key never written by any
interaction still reads as the undefined sentinel, any stored key reads
its stored value, and get is a pure function of the state (it returns a
value without producing a new state, so it cannot mutate the store). -/
theorem c7_get_total (ops : List Op) (k : String) (h : k ∉ writtenKeys ops) :
    get (run ops) k = Value.undef
    ∧ (∀ s : ModelState, ∀ v : Value, lookupValue s.values k = some v → get s k = v) := by
  constructor
  · show get (runFrom initModel ops) k = _
    unfold get
    rw [lookupValue_runFrom_not_written ops initModel k h]
    rfl
  · intro s v hv
    unfold get
    rw [hv]
    rfl

/-- Witness for C7: after writing a, reading the never-written b returns
the undefined sentinel. -/
theorem c7_witness :
    get (run [Op.setOp (SetArg.key "a" (Value.num 5))]) "b" = Value.undef :=
  (c7_get_total [Op.setOp (SetArg.key "a" (Value.num 5))] "b" (by decide)).1

/-- Claim C9: in every reachable state, every property name present in
the listener registry maps to a non-empty listener list: entries are
created lazily by the registration path with a listener immediately
appended, and no interaction removes listeners or stores an empty
list. -/
theorem c9_registry_entries_nonempty (ops : List Op) (p : String) (l : List Nat)
    (h : (p, l) ∈ (run ops).callbacks) : l ≠ [] :=
  registryNonempty_runFrom ops initModel
    (fun _ _ hmem => absurd hmem (List.not_mem_nil _)) p l h

/-- Witness for C9: the registry entry created by a single when
registration is non-empty. -/
theorem c9_witness :
    ("a", [0]) ∈ (run [Op.whenOp (Deps.single "a") none]).callbacks ∧ ([0] : List Nat) ≠ [] :=
  ⟨by decide, c9_registry_entries_nonempty [Op.whenOp (Deps.single "a") none] "a" [0] (by decide)⟩

/-- Claim C5: when normalizes a single name to a one-element list,
registers the one new resolver (the next index) as a listener on every
dependency property — once per occurrence, the same resolver id
everywhere — records exactly one registration-time trigger call and
schedules the resolver once; consequently, if all dependencies are
already defined, running the scheduled turn invokes the callback once
with the current dependency values, without any further set call. -/
theorem c5_when_registers_and_fires (s : ModelState) (dependencies : Deps) (ctx : Option Nat)
    (hq : s.queued.length = s.resolvers.length) :
    (∀ name, normalizeDeps (Deps.single name) = [name])
    ∧ (∀ p, registered (when s dependencies ctx).callbacks p =
        registered s.callbacks p ++
          List.replicate ((normalizeDeps dependencies).count p) s.resolvers.length)
    ∧ (when s dependencies ctx).triggers = s.triggers ++ [s.resolvers.length]
    ∧ (when s dependencies ctx).timeouts = s.timeouts ++ [s.resolvers.length]
    ∧ (s.timeouts = [] →
        allAreDefined ((normalizeDeps dependencies).map (fun dep => get s dep)) = true →
          (tick (when s dependencies ctx)).events =
            s.events ++ [Event.invoke s.resolvers.length ctx
              ((normalizeDeps dependencies).map (fun dep => get s dep))]) := by
  refine ⟨fun _ => rfl, ?_, when_triggers s dependencies ctx,
    when_timeouts_eq s dependencies ctx hq, ?_⟩
  · intro p
    rw [when_callbacks]
    exact registered_registerAll (normalizeDeps dependencies) s.resolvers.length s.callbacks p
  · intro ht hall
    exact tick_when_events s dependencies ctx hq ht hall

/-- Witness for C5: registering on an already-defined property fires the
callback once with its current value after the scheduled turn, with no
further set call. -/
theorem c5_witness :
    (tick (when (setKeyValue initModel "a" (Value.num 5)) (Deps.single "a") none)).events =
      [Event.invoke 0 none [Value.num 5]] :=
  (c5_when_registers_and_fires (setKeyValue initModel "a" (Value.num 5))
    (Deps.single "a") none rfl).2.2.2.2 rfl (by decide)

/-- Claim C8: a when call with an empty dependency list registers
nothing (the registry is unchanged), the all-defined check is vacuously
true, the initialization burst invokes the callback with zero arguments,
and no further interaction sequence can ever invoke that resolver again:
its invocation count stays at exactly one. -/
theorem c8_when_empty_deps (s : ModelState) (ctx : Option Nat)
    (hq : s.queued.length = s.resolvers.length) (ht : s.timeouts = [])
    (hfresh : ∀ p, s.resolvers.length ∉ registered s.callbacks p) :
    allAreDefined [] = true
    ∧ (when s (Deps.many []) ctx).callbacks = s.callbacks
    ∧ (tick (when s (Deps.many []) ctx)).events =
        s.events ++ [Event.invoke s.resolvers.length ctx []]
    ∧ (∀ ops : List Op,
        invokeCount (runFrom (tick (when s (Deps.many []) ctx)) ops).events
            s.resolvers.length =
          invokeCount s.events s.resolvers.length + 1) := by
  have hcb : (when s (Deps.many []) ctx).callbacks = s.callbacks := by
    rw [when_callbacks]
    rfl
  have hev : (tick (when s (Deps.many []) ctx)).events =
      s.events ++ [Event.invoke s.resolvers.length ctx []] :=
    tick_when_events s (Deps.many []) ctx hq ht rfl
  refine ⟨rfl, hcb, hev, ?_⟩
  intro ops
  have hwt : (when s (Deps.many []) ctx).timeouts = s.resolvers.length :: [] := by
    rw [when_timeouts_eq s (Deps.many []) ctx hq, ht]
    rfl
  have hquiet : quiescent (tick (when s (Deps.many []) ctx)) s.resolvers.length := by
    refine ⟨?_, ?_, ?_⟩
    · intro p
      rw [tick_callbacks, hcb]
      exact hfresh p
    · rw [tick_cons _ _ [] hwt, callFnBody_timeouts]
      dsimp only
      exact List.not_mem_nil _
    · rw [tick_resolvers, when_resolvers, List.length_append]
      simp
  have hcount : invokeCount (tick (when s (Deps.many []) ctx)).events s.resolvers.length =
      invokeCount s.events s.resolvers.length + 1 := by
    rw [hev]
    exact invokeCount_append_invoke _ _ _ _
  rw [quiescent_runFrom ops _ _ hquiet, hcount]

/-- Witness for C8: an empty-dependency registration on a fresh model is
invoked exactly once even after a further event-loop turn. -/
theorem c8_witness :
    invokeCount (runFrom (tick (when initModel (Deps.many []) none)) [Op.tickOp]).events 0 = 1 :=
  (c8_when_empty_deps initModel none rfl rfl
    (fun _ => List.not_mem_nil _)).2.2.2 [Op.tickOp]

/-- Claim C10: when the same property name occurs m times in the
dependency list, the same resolver id is appended to that property's
listener list once per occurrence; a single set of that property then
triggers the resolver m times synchronously, yet schedules it exactly
once (the debounce flag absorbs all but the first trigger), so running
the scheduled turn records exactly one callback invocation for the
burst. -/
theorem c10_duplicate_deps (m : Nat) (hm : 2 ≤ m) (name : String) (v : Value)
    (hundef : v ≠ Value.undef) (hnull : v ≠ Value.null) :
    registered (when initModel (Deps.many (List.replicate m name)) none).callbacks name =
      List.replicate m 0
    ∧ (setKeyValue (tick (when initModel (Deps.many (List.replicate m name)) none))
        name v).triggers =
      (tick (when initModel (Deps.many (List.replicate m name)) none)).triggers ++
        List.replicate m 0
    ∧ (setKeyValue (tick (when initModel (Deps.many (List.replicate m name)) none))
        name v).timeouts = [0]
    ∧ (tick (setKeyValue (tick (when initModel (Deps.many (List.replicate m name)) none))
        name v)).events = [Event.invoke 0 none (List.replicate m v)] := by
  have hm1 : 1 ≤ m := by omega
  have hregL : registered (registerAll [] (List.replicate m name) 0) name =
      List.replicate m 0 := by
    rw [registered_registerAll]
    simp [registered, lookupCallbacks, List.count_replicate_self]
  obtain ⟨s1, hs1⟩ : ∃ x, when initModel (Deps.many (List.replicate m name)) none = x :=
    ⟨_, rfl⟩
  rw [hs1]
  have hw1 : s1 = { values := [], callbacks := registerAll [] (List.replicate m name) 0,
                    resolvers := [{ deps := List.replicate m name, ctx := none }],
                    queued := [true], timeouts := [0], triggers := [0], events := [] } := by
    rw [← hs1, when_eq_of_length initModel (Deps.many (List.replicate m name)) none rfl]
    rfl
  have hreg : registered s1.callbacks name = List.replicate m 0 := by
    rw [hw1]
    exact hregL
  obtain ⟨s2, hs2⟩ : ∃ x, tick s1 = x := ⟨_, rfl⟩
  rw [hs2]
  have hw2 : s2 = { values := [], callbacks := registerAll [] (List.replicate m name) 0,
                    resolvers := [{ deps := List.replicate m name, ctx := none }],
                    queued := [false], timeouts := [], triggers := [0], events := [] } := by
    rw [← hs2]
    have ht1 : s1.timeouts = 0 :: [] := by rw [hw1]
    have hr1 : s1.resolvers.get? 0 =
        some { deps := List.replicate m name, ctx := none } := by
      rw [hw1]
      rfl
    have hg1 : get s1 name = Value.undef := by
      unfold get
      rw [hw1]
      rfl
    have hargs1 : ({ deps := List.replicate m name, ctx := none } : Resolver).deps.map
        (fun dep => get s1 dep) = List.replicate m Value.undef := by
      dsimp only
      rw [List.map_replicate, hg1]
    have hall1 : allAreDefined (({ deps := List.replicate m name, ctx := none } :
        Resolver).deps.map (fun dep => get s1 dep)) = false := by
      rw [hargs1]
      exact allAreDefined_replicate_undef m hm1
    rw [tick_skip_state s1 0 [] _ ht1 hr1 hall1, hw1]
    rfl
  have hreg2 : registered s2.callbacks name = List.replicate m 0 := by
    rw [hw2]
    exact hregL
  have hlook : lookupCallbacks s2.callbacks name = some (List.replicate m 0) := by
    have hne : registered s2.callbacks name ≠ [] := by
      rw [hreg2]
      intro hc
      have := congrArg List.length hc
      simp at this
      omega
    rw [← hreg2]
    exact lookup_eq_of_registered_ne_nil s2.callbacks name hne
  have htrig : (setKeyValue s2 name v).triggers = s2.triggers ++ List.replicate m 0 := by
    rw [setKeyValue_triggers, hreg2]
  have hs3eq : setKeyValue s2 name v =
      (List.replicate m 0).foldl callDebounced { s2 with values := (name, v) :: s2.values } := by
    unfold setKeyValue
    dsimp only
    rw [hlook]
  have hlen2 : 0 < ({ s2 with values := (name, v) :: s2.values } : ModelState).queued.length := by
    show 0 < s2.queued.length
    rw [hw2]
    simp
  have hq02 : ({ s2 with values := (name, v) :: s2.values } :
      ModelState).queued.getD 0 true = false := by
    show s2.queued.getD 0 true = false
    rw [hw2]
    rfl
  have htmo : (setKeyValue s2 name v).timeouts = [0] := by
    rw [hs3eq, foldl_callDebounced_replicate_timeouts m hm1 _ 0 hlen2 hq02]
    show s2.timeouts ++ [0] = [0]
    rw [hw2]
    rfl
  have hs3t : (setKeyValue s2 name v).timeouts = 0 :: [] := htmo
  have hs3r : (setKeyValue s2 name v).resolvers.get? 0 =
      some { deps := List.replicate m name, ctx := none } := by
    rw [setKeyValue_resolvers, hw2]
    rfl
  have hget3 : get (setKeyValue s2 name v) name = v := get_setKeyValue_self s2 name v
  have hargs3 : ({ deps := List.replicate m name, ctx := none } : Resolver).deps.map
      (fun dep => get (setKeyValue s2 name v) dep) = List.replicate m v := by
    dsimp only
    rw [List.map_replicate, hget3]
  have hall3 : allAreDefined (({ deps := List.replicate m name, ctx := none } :
      Resolver).deps.map (fun dep => get (setKeyValue s2 name v) dep)) = true := by
    rw [hargs3]
    exact allAreDefined_replicate_defined m v hundef hnull
  have hev3 := tick_events_invoke (setKeyValue s2 name v) 0 [] _ hs3t hs3r hall3
  refine ⟨hreg, htrig, htmo, ?_⟩
  rw [hev3, setKeyValue_events, hargs3, hw2]
  rfl

/-- Witness for C10: two occurrences of the same dependency, one set, one
recorded invocation with the value repeated per occurrence. -/
theorem c10_witness :
    (tick (setKeyValue (tick (when initModel (Deps.many ["a", "a"]) none)) "a"
        (Value.num 7))).events =
      [Event.invoke 0 none [Value.num 7, Value.num 7]] :=
  (c10_duplicate_deps 2 (by omega) "a" (Value.num 7) (by decide) (by decide)).2.2.2

end Model
